import Mathlib

/-!
Verification development for the bandit experimentation system
(bandit-service + bandit-pipeline).

The State Store (Dragonfly/Redis) is modelled as a partial map from
structured keys to integers.  The colon-delimited string keys
`experiment:<id>:n_arms`, `experiment:<id>:total_draws`,
`experiment:<id>:arm:<k>:alpha`, `experiment:<id>:arm:<k>:beta`
are rendered by the injective constructors of `DKey`, so distinct
structured keys correspond exactly to distinct strings.

Beta-distribution draws are pure randomness: they are passed to the
embedded functions as explicit sample oracles (one rational per arm and
Monte-Carlo round), exactly where the Python code calls
`np.random.beta`.  Everything downstream of the draws (argmax, counting,
thresholding, store and registry updates) is embedded faithfully from
the source.
-/

namespace Bandit

/-- Structured rendering of the colon-delimited Dragonfly keys.
`arm` indices are `Int` because the service never validates `arm_id`,
so negative indices can reach `record_reward`. -/
inductive DKey : Type where
  | nArms (eid : String)
  | totalDraws (eid : String)
  | alpha (eid : String) (k : Int)
  | beta (eid : String) (k : Int)
deriving DecidableEq

/-- The State Store: a partial map from keys to integer values. -/
def Store : Type := DKey → Option Int

/-- The empty store (fresh database). -/
def emptyStore : Store := fun _ => none

/-- Redis `SET key v`. -/
def storeSet (df : Store) (key : DKey) (v : Int) : Store :=
  fun k => if k = key then some v else df k

/-- Redis `INCR key`: a missing key is treated as 0, then incremented. -/
def storeIncr (df : Store) (key : DKey) : Store :=
  fun k => if k = key then some ((df key).getD 0 + 1) else df k

/-- Embeds `get_n_arms` (bandit.py): a single GET; `none` models the
`KeyError` raised when the key is absent. -/
def get_n_arms (df : Store) (eid : String) : Option Int :=
  df (DKey.nArms eid)

/-- Embeds `read_posteriors` (bandit.py): batched multi-get of the
`2 * n_arms` counter keys; `int(value or 1)` maps a missing value to
the prior `1`. -/
def read_posteriors (df : Store) (eid : String) (n_arms : Nat) :
    List Int × List Int :=
  ((List.range n_arms).map
      (fun k : Nat => (df (DKey.alpha eid (k : Int))).getD 1),
   (List.range n_arms).map
      (fun k : Nat => (df (DKey.beta eid (k : Int))).getD 1))

/-- Embeds `record_reward` (bandit.py): `reward > 0` increments `alpha`,
otherwise `beta`; `total_draws` is always incremented.  Python floats
in `[0, 1]` are modelled as rationals. -/
def record_reward (df : Store) (eid : String) (arm_id : Int)
    (reward : ℚ) : Store :=
  let df1 := if reward > 0
    then storeIncr df (DKey.alpha eid arm_id)
    else storeIncr df (DKey.beta eid arm_id)
  storeIncr df1 (DKey.totalDraws eid)

/-- The per-arm loop of `init_experiment`: `SET alpha_k 1; SET beta_k 1`
for each `k in range(n)`. -/
def seedArms (df : Store) (eid : String) (n : Nat) : Store :=
  (List.range n).foldl
    (fun d k => storeSet (storeSet d (DKey.alpha eid k) 1)
      (DKey.beta eid k) 1) df

/-- Embeds `init_experiment` (bandit.py): pipeline of SETs seeding
`n_arms`, `total_draws = 0` and the uniform `Beta(1,1)` prior for
every arm. -/
def init_experiment (df : Store) (eid : String) (n_arms : Nat) : Store :=
  seedArms
    (storeSet (storeSet df (DKey.nArms eid) n_arms)
      (DKey.totalDraws eid) 0)
    eid n_arms

/-- Embeds `np.argmax` on a list: value and index of the first occurrence of
the maximum (`none` on the empty list, where NumPy raises). -/
def argmaxAux : List ℚ → Option (Nat × ℚ)
  | [] => none
  | x :: xs =>
    match argmaxAux xs with
    | none => some (0, x)
    | some (j, m) => if x < m then some (j + 1, m) else some (0, x)

/-- Index returned by `np.argmax` (ties broken by lowest index). -/
def argmaxIdx (l : List ℚ) : Nat := ((argmaxAux l).getD (0, 0)).1

/-- Column `j` of a sample matrix stored as a list of rows. -/
def col (mat : List (List ℚ)) (j : Nat) : List ℚ :=
  mat.map (fun row => row.getD j 0)

/-- Constant `M_hot` (spec §4.2): Monte-Carlo rounds on the `/select` hot path. -/
def M_hot : Nat := 1000

/-- Embeds `thompson_sample` (bandit.py): `samples` holds the one-per-arm Beta
draws, `mc` the `n_arms × 1000` Monte-Carlo matrix (row `k` holds the per-arm draws of the
Monte-Carlo matrix).  Returns the argmax arm and the fraction of Monte-Carlo
columns whose argmax equals that arm. -/
def thompson_sample (samples : List ℚ) (mc : List (List ℚ)) :
    Nat × ℚ :=
  let arm_id := argmaxIdx samples
  let hits := (List.range M_hot).countP
    (fun j => argmaxIdx (col mc j) == arm_id)
  (arm_id, (hits : ℚ) / (M_hot : ℚ))

/-- Shared Monte-Carlo kernel of `should_conclude`, `p_best_all_arms`
(stopping.py) and `_check_stopping_rule` (conclude_experiments.py):
`p_best[k]` is the fraction of the `M` sample columns whose
arm-argmax is `k`, i.e.
`(samples.argmax(axis=0)[:, None] == np.arange(n_arms)).mean(axis=0)`. -/
def p_best_vec (S : List (List ℚ)) (M : Nat) : List ℚ :=
  (List.range S.length).map
    (fun k => (((List.range M).countP
      (fun j => argmaxIdx (col S j) == k) : ℚ)) / (M : ℚ))

/-- The joint Beta draw matrix: row `k` holds the `M` draws of arm `k`,
produced by the sample oracle `draw`. -/
def sampleMatrix (draw : Nat → Nat → ℚ) (n_arms M : Nat) :
    List (List ℚ) :=
  (List.range n_arms).map (fun k => (List.range M).map (draw k))

/-- Embeds `should_conclude` (stopping.py): Monte-Carlo stopping check.
`none` models the `KeyError` escaping from `get_n_arms`; otherwise
returns `(p_best[winner] >= threshold, winner)` with
`winner = argmax p_best`.  `M` is the `n_samples` parameter
(default 10 000), `draw` the Beta sample oracle. -/
def should_conclude (df : Store) (eid : String) (draw : Nat → Nat → ℚ)
    (threshold : ℚ) (M : Nat) : Option (Bool × Nat) :=
  match get_n_arms df eid with
  | none => none
  | some n =>
    let _ab := read_posteriors df eid n.toNat
    let p := p_best_vec (sampleMatrix draw n.toNat M) M
    let winner := argmaxIdx p
    some (decide (threshold ≤ p.getD winner 0), winner)

/-- Default `threshold` of `should_conclude` and of the `/conclude`
endpoint (stopping.py, main.py). -/
def DEFAULT_THRESHOLD : ℚ := 95 / 100

/-- Embeds `p_best_all_arms` (stopping.py): the full P(best) vector; `none`
models the `KeyError` of `get_n_arms`. -/
def p_best_all_arms (df : Store) (eid : String) (draw : Nat → Nat → ℚ)
    (M : Nat) : Option (List ℚ) :=
  match get_n_arms df eid with
  | none => none
  | some n =>
    let _ab := read_posteriors df eid n.toNat
    some (p_best_vec (sampleMatrix draw n.toNat M) M)

/-- HTTP outcomes of `POST /reward` (main.py). -/
inductive RewardResp : Type where
  | notFound404
  | invalid422
  | ok204
deriving DecidableEq

/-- Embeds the `reward` endpoint (main.py): 404 when `get_n_arms` raises
`KeyError`; 422 when
`reward not in (0.0, 1.0) and not (0.0 <= reward <= 1.0)`;
otherwise `record_reward` runs and 204 is returned.
Note: `arm_id` is never validated. -/
def reward (df : Store) (eid : String) (arm_id : Int) (rw : ℚ) :
    RewardResp × Store :=
  match get_n_arms df eid with
  | none => (RewardResp.notFound404, df)
  | some _ =>
    if (rw ≠ 0 ∧ rw ≠ 1) ∧ ¬(0 ≤ rw ∧ rw ≤ 1) then
      (RewardResp.invalid422, df)
    else
      (RewardResp.ok204, record_reward df eid arm_id rw)

/-- HTTP outcomes of `POST /experiments` (main.py). -/
inductive CreateResp : Type where
  | invalid422
  | created201
deriving DecidableEq

/-- Embeds the `create_experiment` endpoint (main.py): 422 when `n_arms < 2`,
otherwise `init_experiment` runs unconditionally and 201 is returned.
Note: an already-existing `experiment_id` is not checked. -/
def create_experiment (df : Store) (eid : String) (n_arms : Int) :
    CreateResp × Store :=
  if n_arms < 2 then (CreateResp.invalid422, df)
  else (CreateResp.created201, init_experiment df eid n_arms.toNat)

/-! ## Conclusion Engine (bandit-pipeline) -/

/-- Registry row status (Postgres `experiments.status`). -/
inductive RegStatus : Type where
  | running
  | concluded
deriving DecidableEq

/-- A Registry row: status plus recorded winner. -/
structure RegRow : Type where
  status : RegStatus
  winner : Option Int
deriving DecidableEq

/-- The Experiment Registry (Postgres `experiments` table). -/
def Registry : Type := String → Option RegRow

/-- The conditional UPDATE of the sweep:
`SET status = concluded, winner_arm = w WHERE experiment_id = eid AND
status = running`.  Returns the new registry and the updated row
count (1 when the row was `running`, 0 otherwise). -/
def concludeUpdate (reg : Registry) (eid : String) (w : Int) :
    Registry × Nat :=
  match reg eid with
  | some row =>
    if row.status = RegStatus.running then
      ((fun s => if s = eid
          then some { status := RegStatus.concluded, winner := some w }
          else reg s), 1)
    else (reg, 0)
  | none => (reg, 0)

/-- Constant `STOPPING_THRESHOLD` (conclude_experiments.py): environment
default `"0.95"`. -/
def STOPPING_THRESHOLD : ℚ := 95 / 100

/-- Constant `M_stop` (spec §4.2): Monte-Carlo rounds of the stopping sweep. -/
def M_stop : Nat := 10000

/-- Embeds `_check_stopping_rule` (conclude_experiments.py):
`n_arms = int(GET ... or 0)`; when it is 0 the function returns
`(False, -1, [])`; otherwise the mget + Monte-Carlo + argmax +
threshold comparison.  `draw` is the Beta sample oracle. -/
def check_stopping_rule (df : Store) (eid : String)
    (draw : Nat → Nat → ℚ) (threshold : ℚ) (M : Nat) :
    Bool × Int × List ℚ :=
  let n_arms : Int := (df (DKey.nArms eid)).getD 0
  if n_arms = 0 then (false, -1, [])
  else
    let _ab := read_posteriors df eid n_arms.toNat
    let p := p_best_vec (sampleMatrix draw n_arms.toNat M) M
    let winner := argmaxIdx p
    (decide (threshold ≤ p.getD winner 0), (winner : Int), p)

/-- Embeds `check_and_conclude` (conclude_experiments.py) with the Postgres
engine configured: for each experiment id run the stopping check with
the default threshold and `n_samples = 10 000`; when it fires, execute
the conditional UPDATE — discarding its row count, as the code does —
and append the id to `concluded`.  `draw` gives each experiment its
sample oracle. -/
def check_and_conclude (df : Store) (draw : String → Nat → Nat → ℚ)
    (reg : Registry) (ids : List String) : List String × Registry :=
  ids.foldl
    (fun acc eid =>
      let r := check_stopping_rule df eid (draw eid)
        STOPPING_THRESHOLD M_stop
      if r.1 then
        (acc.1 ++ [eid], (concludeUpdate acc.2 eid r.2.1).1)
      else acc)
    ([], reg)

/-- The Grafana text posted for a concluded experiment
(conclude_experiments.py). -/
def grafanaText (eid : String) : String :=
  "Experiment " ++ eid ++ " concluded - winner declared at P(best) > 0.95"

/-- Embeds `post_grafana_annotations` (conclude_experiments.py) with the token
configured: one annotation payload text per id in `concluded_ids`. -/
def post_grafana_annotations (concluded_ids : List String) :
    List String :=
  concluded_ids.map grafanaText

/-! ## Specification-side predicates and concrete scenarios -/

/-- Arm `k` attains the maximum sample of `l`. -/
def attainsMax (l : List ℚ) (k : Nat) : Prop :=
  k < l.length ∧ ∀ i, i < l.length → l.getD i 0 ≤ l.getD k 0

instance (l : List ℚ) (k : Nat) : Decidable (attainsMax l k) := by
  unfold attainsMax
  exact instDecidableAnd

/-- Arm `k` is the argmax of `l` with ties broken by lowest index. -/
def isLowestArgmax (l : List ℚ) (k : Nat) : Prop :=
  attainsMax l k ∧ ∀ i, i < k → l.getD i 0 < l.getD k 0

/-- The maximum of `l` is attained at exactly one index. -/
def uniqueMax (l : List ℚ) : Prop :=
  ∀ a b, attainsMax l a → attainsMax l b → a = b

/-- A sequence of reward events `(arm_id, reward)` applied through
`record_reward` on one experiment. -/
def rewardEvents (df : Store) (eid : String) (evs : List (Int × ℚ)) :
    Store :=
  evs.foldl (fun d ev => record_reward d eid ev.1 ev.2) df

/-- A sequence of `POST /reward` calls on one arm of one experiment
(each call goes through the endpoint validation). -/
def rewardCalls (df : Store) (eid : String) (k : Int) (rs : List ℚ) :
    Store :=
  rs.foldl (fun d r => (reward d eid k r).2) df

/-- Scenario: store freshly seeded with experiment `"e"`, 2 arms. -/
def dfSeeded : Store := init_experiment emptyStore "e" 2

/-- Scenario (second create): store after `POST /experiments {"e", 2}`
followed by `POST /reward {"e", 0, 1.0}`. -/
def dfAfterReward : Store := (reward (create_experiment emptyStore "e" 2).2 "e" 0 1).2

/-- Scenario (concurrent conclude): store holding only `n_arms = 2`
for experiment `"e"`. -/
def dfC2 : Store := storeSet emptyStore (DKey.nArms "e") 2

/-- Sample oracle where arm 0 always draws 1 and the rest 0, making
arm 0 the decisive winner of every Monte-Carlo round. -/
def drawWin0 : String → Nat → Nat → ℚ := fun _ k _ => if k = 0 then 1 else 0

/-- Registry where experiment `"e"` has already been concluded
(e.g. by a concurrent sweep). -/
def regConcluded : Registry := fun s =>
  if s = "e" then some { status := RegStatus.concluded, winner := some 0 }
  else none

/-! ## Basic lemmas: argmax -/

theorem argmaxAux_eq_none (l : List ℚ) :
    argmaxAux l = none ↔ l = [] := by
  cases l with
  | nil => simp [argmaxAux]
  | cons x xs =>
    simp only [argmaxAux]
    cases argmaxAux xs with
    | none => simp
    | some jm =>
      cases jm with
      | mk j m => by_cases hc : x < m <;> simp [hc]

theorem argmaxAux_spec :
    ∀ (l : List ℚ) (j : Nat) (m : ℚ), argmaxAux l = some (j, m) →
      j < l.length ∧ l.getD j 0 = m ∧
      (∀ i, i < l.length → l.getD i 0 ≤ m) ∧
      (∀ i, i < j → l.getD i 0 < m)
  | [], j, m => by simp [argmaxAux]
  | x :: xs, j, m => by
    intro h
    simp only [argmaxAux] at h
    cases hx : argmaxAux xs with
    | none =>
      rw [hx] at h
      simp only [Option.some.injEq, Prod.mk.injEq] at h
      obtain ⟨hj, hm⟩ := h
      subst hj; subst hm
      have hxs : xs = [] := (argmaxAux_eq_none xs).mp hx
      subst hxs
      refine ⟨by simp, by simp, ?_, by omega⟩
      intro i hi
      have : i = 0 := by simpa using Nat.lt_one_iff.mp hi
      subst this; simp
    | some jm =>
      cases jm with
      | mk jt mt =>
        rw [hx] at h
        obtain ⟨h1, h2, h3, h4⟩ := argmaxAux_spec xs jt mt hx
        by_cases hlt : x < mt
        · simp only [hlt, if_true, Option.some.injEq, Prod.mk.injEq] at h
          obtain ⟨hj, hm⟩ := h
          subst hj; subst hm
          refine ⟨by simpa using Nat.succ_lt_succ h1, by simpa using h2,
            ?_, ?_⟩
          · intro i hi
            cases i with
            | zero => simpa using le_of_lt hlt
            | succ i =>
              simp only [List.getD_cons_succ]
              exact h3 i (by simpa using hi)
          · intro i hi
            cases i with
            | zero => simpa using hlt
            | succ i =>
              simp only [List.getD_cons_succ]
              exact h4 i (by omega)
        · simp only [hlt, if_false, Option.some.injEq, Prod.mk.injEq] at h
          obtain ⟨hj, hm⟩ := h
          subst hj; subst hm
          push_neg at hlt
          refine ⟨by simp, by simp, ?_, by omega⟩
          intro i hi
          cases i with
          | zero => simp
          | succ i =>
            simp only [List.getD_cons_zero, List.getD_cons_succ]
            exact le_trans (h3 i (by simpa using hi)) hlt

theorem argmaxIdx_isLowestArgmax (l : List ℚ) (hl : l ≠ []) :
    isLowestArgmax l (argmaxIdx l) := by
  cases hx : argmaxAux l with
  | none => exact absurd ((argmaxAux_eq_none l).mp hx) hl
  | some jm =>
    cases jm with
    | mk j m =>
      obtain ⟨h1, h2, h3, h4⟩ := argmaxAux_spec l j m hx
      have hidx : argmaxIdx l = j := by simp [argmaxIdx, hx]
      rw [hidx]
      exact ⟨⟨h1, fun i hi => h2 ▸ h3 i hi⟩, fun i hi => h2 ▸ h4 i hi⟩

theorem argmaxIdx_lt_length (l : List ℚ) (hl : l ≠ []) :
    argmaxIdx l < l.length :=
  (argmaxIdx_isLowestArgmax l hl).1.1

/-- Under a unique maximum, `np.argmax` hits index `k` iff `k` attains
the maximum. -/
theorem argmaxIdx_eq_iff_attainsMax (l : List ℚ) (hl : l ≠ [])
    (hu : uniqueMax l) (k : Nat) :
    argmaxIdx l = k ↔ attainsMax l k := by
  constructor
  · rintro rfl
    exact (argmaxIdx_isLowestArgmax l hl).1
  · intro hk
    exact hu (argmaxIdx l) k (argmaxIdx_isLowestArgmax l hl).1 hk

/-! ## Basic lemmas: store operations -/

theorem storeSet_same (df : Store) (key : DKey) (v : Int) :
    storeSet df key v key = some v := by simp [storeSet]

theorem storeSet_other (df : Store) (key : DKey) (v : Int) (k : DKey)
    (h : k ≠ key) : storeSet df key v k = df k := by simp [storeSet, h]

theorem storeIncr_same (df : Store) (key : DKey) :
    storeIncr df key key = some ((df key).getD 0 + 1) := by
  simp [storeIncr]

theorem storeIncr_other (df : Store) (key : DKey) (k : DKey)
    (h : k ≠ key) : storeIncr df key k = df k := by simp [storeIncr, h]

theorem storeIncr_comm (df : Store) (k1 k2 : DKey) :
    storeIncr (storeIncr df k1) k2 = storeIncr (storeIncr df k2) k1 := by
  by_cases h : k1 = k2
  · subst h; rfl
  · funext k
    by_cases h1 : k = k1 <;> by_cases h2 : k = k2
    · exact absurd (h1.symm.trans h2) h
    · subst h1; simp [storeIncr, h, h2, Ne.symm h]
    · subst h2; simp [storeIncr, h, h1, Ne.symm h]
    · simp [storeIncr, h1, h2]

theorem seedArms_succ (df : Store) (eid : String) (n : Nat) :
    seedArms df eid (n + 1) =
      storeSet (storeSet (seedArms df eid n) (DKey.alpha eid n) 1)
        (DKey.beta eid n) 1 := by
  simp [seedArms, List.range_succ]

theorem seedArms_other (df : Store) (eid : String) (n : Nat) (key : DKey)
    (h : ∀ k : Nat, k < n →
      key ≠ DKey.alpha eid k ∧ key ≠ DKey.beta eid k) :
    seedArms df eid n key = df key := by
  induction n with
  | zero => simp [seedArms]
  | succ m ih =>
    rw [seedArms_succ]
    rw [storeSet_other _ _ _ _ (h m (by omega)).2]
    rw [storeSet_other _ _ _ _ (h m (by omega)).1]
    exact ih (fun k hk => h k (by omega))

theorem seedArms_alpha (df : Store) (eid : String) (n : Nat) (k : Nat)
    (hk : k < n) : seedArms df eid n (DKey.alpha eid k) = some 1 := by
  induction n with
  | zero => omega
  | succ m ih =>
    rw [seedArms_succ]
    rw [storeSet_other _ _ _ _ (by simp)]
    by_cases h : k = m
    · subst h; exact storeSet_same _ _ _
    · rw [storeSet_other _ _ _ _ (by simp; omega)]
      exact ih (by omega)

theorem seedArms_beta (df : Store) (eid : String) (n : Nat) (k : Nat)
    (hk : k < n) : seedArms df eid n (DKey.beta eid k) = some 1 := by
  induction n with
  | zero => omega
  | succ m ih =>
    rw [seedArms_succ]
    by_cases h : k = m
    · subst h; exact storeSet_same _ _ _
    · rw [storeSet_other _ _ _ _ (by simp; omega)]
      rw [storeSet_other _ _ _ _ (by simp)]
      exact ih (by omega)

theorem init_experiment_nArms (df : Store) (eid : String) (n : Nat) :
    init_experiment df eid n (DKey.nArms eid) = some n := by
  rw [init_experiment, seedArms_other _ _ _ _ (by simp)]
  rw [storeSet_other _ _ _ _ (by simp)]
  exact storeSet_same _ _ _

theorem init_experiment_totalDraws (df : Store) (eid : String) (n : Nat) :
    init_experiment df eid n (DKey.totalDraws eid) = some 0 := by
  rw [init_experiment, seedArms_other _ _ _ _ (by simp)]
  exact storeSet_same _ _ _

theorem init_experiment_alpha (df : Store) (eid : String) (n : Nat)
    (k : Nat) (hk : k < n) :
    init_experiment df eid n (DKey.alpha eid k) = some 1 :=
  seedArms_alpha _ _ _ _ hk

theorem init_experiment_beta (df : Store) (eid : String) (n : Nat)
    (k : Nat) (hk : k < n) :
    init_experiment df eid n (DKey.beta eid k) = some 1 :=
  seedArms_beta _ _ _ _ hk

/-! ## Basic lemmas: reward recording -/

theorem record_reward_totalDraws (df : Store) (eid : String) (a : Int)
    (r : ℚ) :
    record_reward df eid a r (DKey.totalDraws eid)
      = some ((df (DKey.totalDraws eid)).getD 0 + 1) := by
  by_cases hr : 0 < r <;> simp [record_reward, hr, storeIncr]

theorem record_reward_alpha_pos (df : Store) (eid : String) (a : Int)
    (r : ℚ) (hr : 0 < r) :
    record_reward df eid a r (DKey.alpha eid a)
      = some ((df (DKey.alpha eid a)).getD 0 + 1) := by
  simp [record_reward, hr, storeIncr]

theorem record_reward_beta_pos (df : Store) (eid : String) (a : Int)
    (r : ℚ) (hr : 0 < r) :
    record_reward df eid a r (DKey.beta eid a) = df (DKey.beta eid a) := by
  simp [record_reward, hr, storeIncr]

theorem record_reward_beta_nonpos (df : Store) (eid : String) (a : Int)
    (r : ℚ) (hr : ¬ 0 < r) :
    record_reward df eid a r (DKey.beta eid a)
      = some ((df (DKey.beta eid a)).getD 0 + 1) := by
  simp [record_reward, hr, storeIncr]

theorem record_reward_alpha_nonpos (df : Store) (eid : String) (a : Int)
    (r : ℚ) (hr : ¬ 0 < r) :
    record_reward df eid a r (DKey.alpha eid a) = df (DKey.alpha eid a) := by
  simp [record_reward, hr, storeIncr]

theorem record_reward_other (df : Store) (eid : String) (a : Int) (r : ℚ)
    (key : DKey) (hka : key ≠ DKey.alpha eid a)
    (hkb : key ≠ DKey.beta eid a) (hkt : key ≠ DKey.totalDraws eid) :
    record_reward df eid a r key = df key := by
  by_cases hr : 0 < r <;>
    simp [record_reward, hr, storeIncr, hka, hkb, hkt]

/-- With the experiment present and `0 ≤ r ≤ 1` the endpoint
validation passes and the posterior update runs. -/
theorem reward_valid (df : Store) (eid : String) (a : Int) (r : ℚ)
    (m : Int) (hm : df (DKey.nArms eid) = some m) (h0 : 0 ≤ r)
    (h1 : r ≤ 1) :
    reward df eid a r = (RewardResp.ok204, record_reward df eid a r) := by
  simp [reward, get_n_arms, hm, h0, h1]

theorem storeIncr_quad (df : Store) (K1 K2 T : DKey) :
    storeIncr (storeIncr (storeIncr (storeIncr df K1) T) K2) T =
      storeIncr (storeIncr (storeIncr (storeIncr df K2) T) K1) T := by
  rw [storeIncr_comm (storeIncr df K1) T K2,
    storeIncr_comm df K1 K2,
    storeIncr_comm (storeIncr df K2) K1 T]

theorem record_reward_comm (df : Store) (eid : String) (a b : Int)
    (r s : ℚ) :
    record_reward (record_reward df eid a r) eid b s =
      record_reward (record_reward df eid b s) eid a r := by
  by_cases h1 : 0 < r <;> by_cases h2 : 0 < s <;>
    simp only [record_reward, h1, h2, if_true, if_false, if_pos, if_neg,
      not_false_eq_true, not_true_eq_false] <;>
    exact storeIncr_quad _ _ _ _

/-- Counter bookkeeping of a sequence of valid `POST /reward` calls on
one arm, generalised over the starting counter values. -/
theorem rewardCalls_counts (eid : String) (k : Int) :
    ∀ (rs : List ℚ) (df : Store) (m a b : Int),
      df (DKey.nArms eid) = some m →
      (∀ r ∈ rs, 0 ≤ r ∧ r ≤ 1) →
      df (DKey.alpha eid k) = some a →
      df (DKey.beta eid k) = some b →
      rewardCalls df eid k rs (DKey.alpha eid k)
        = some (a + (rs.countP (fun r => decide (0 < r)) : Int)) ∧
      rewardCalls df eid k rs (DKey.beta eid k)
        = some (b + (rs.countP (fun r => decide (r ≤ 0)) : Int))
  | [], df, m, a, b, hm, hv, ha, hb => by simp [rewardCalls, ha, hb]
  | r :: rest, df, m, a, b, hm, hv, ha, hb => by
    have hvr := hv r (by simp)
    have hstep := reward_valid df eid k r m hm hvr.1 hvr.2
    have hrw : rewardCalls df eid k (r :: rest) =
        rewardCalls (record_reward df eid k r) eid k rest := by
      simp [rewardCalls, hstep]
    have hrest : ∀ x ∈ rest, 0 ≤ x ∧ x ≤ 1 :=
      fun x hx => hv x (by simp [hx])
    have hm2 : record_reward df eid k r (DKey.nArms eid) = some m := by
      rw [record_reward_other df eid k r _ (by simp) (by simp) (by simp)]
      exact hm
    by_cases hr : 0 < r
    · have ha2 : record_reward df eid k r (DKey.alpha eid k)
          = some (a + 1) := by
        rw [record_reward_alpha_pos df eid k r hr, ha]; rfl
      have hb2 : record_reward df eid k r (DKey.beta eid k) = some b := by
        rw [record_reward_beta_pos df eid k r hr]; exact hb
      have ih := rewardCalls_counts eid k rest
        (record_reward df eid k r) m (a + 1) b hm2 hrest ha2 hb2
      rw [hrw]
      refine ⟨ih.1.trans ?_, ih.2.trans ?_⟩
      · have hc : (r :: rest).countP (fun x => decide (0 < x))
            = rest.countP (fun x => decide (0 < x)) + 1 := by
          simp [List.countP_cons, hr]
        rw [hc]; congr 1; push_cast; ring
      · have hle : ¬ r ≤ 0 := not_le.mpr hr
        simp [List.countP_cons, hle]
    · have hb2 : record_reward df eid k r (DKey.beta eid k)
          = some (b + 1) := by
        rw [record_reward_beta_nonpos df eid k r hr, hb]; rfl
      have ha2 : record_reward df eid k r (DKey.alpha eid k) = some a := by
        rw [record_reward_alpha_nonpos df eid k r hr]; exact ha
      have ih := rewardCalls_counts eid k rest
        (record_reward df eid k r) m a (b + 1) hm2 hrest ha2 hb2
      rw [hrw]
      refine ⟨ih.1.trans ?_, ih.2.trans ?_⟩
      · simp [List.countP_cons, hr]
      · have hle : r ≤ 0 := not_lt.mp hr
        have hc : (r :: rest).countP (fun x => decide (x ≤ 0))
            = rest.countP (fun x => decide (x ≤ 0)) + 1 := by
          simp [List.countP_cons, hle]
        rw [hc]; congr 1; push_cast; ring

theorem rewardEvents_perm (df : Store) (eid : String)
    (evs evs2 : List (Int × ℚ)) (hp : evs.Perm evs2) :
    rewardEvents df eid evs = rewardEvents df eid evs2 := by
  induction hp generalizing df with
  | nil => rfl
  | cons x h ih =>
    show rewardEvents (record_reward df eid x.1 x.2) eid _ = _
    exact ih _
  | swap x y l =>
    show rewardEvents (record_reward (record_reward df eid y.1 y.2)
        eid x.1 x.2) eid l = rewardEvents (record_reward
        (record_reward df eid x.1 x.2) eid y.1 y.2) eid l
    rw [record_reward_comm]
  | trans h1 h2 ih1 ih2 => exact (ih1 df).trans (ih2 df)

/-! ## Basic lemmas: Monte-Carlo counting -/

theorem range_map_getD {α : Type} [Inhabited α] (g : Nat → α) (n k : Nat)
    (d : α) (hk : k < n) : ((List.range n).map g).getD k d = g k := by
  rw [List.getD_eq_getElem _ _ (by simpa using hk)]
  simp

theorem range_map_sum (g : Nat → ℚ) (n : Nat) :
    ((List.range n).map g).sum = ∑ i ∈ Finset.range n, g i := by
  induction n with
  | zero => simp
  | succ m ih => rw [List.range_succ, Finset.sum_range_succ]; simp [ih]

theorem countP_partition (f : Nat → Nat) (n : Nat) :
    ∀ l : List Nat, (∀ j ∈ l, f j < n) →
      ∑ k ∈ Finset.range n, (l.countP (fun j => f j == k) : ℚ)
        = l.length
  | [] => by simp
  | j :: l => fun hb => by
    have ihl := countP_partition f n l (fun x hx => hb x (by simp [hx]))
    have hone : ∑ k ∈ Finset.range n,
        (if f j == k then (1 : ℚ) else 0) = 1 := by
      have hmem : f j ∈ Finset.range n :=
        Finset.mem_range.mpr (hb j (by simp))
      simp only [beq_iff_eq]
      rw [Finset.sum_ite_eq (Finset.range n) (f j) (fun _ => (1 : ℚ))]
      simp [hmem]
    calc ∑ k ∈ Finset.range n, ((j :: l).countP (fun x => f x == k) : ℚ)
        = ∑ k ∈ Finset.range n, ((l.countP (fun x => f x == k) : ℚ)
            + if f j == k then 1 else 0) := by
          refine Finset.sum_congr rfl (fun k _ => ?_)
          by_cases hj : f j == k <;> simp [List.countP_cons, hj]
      _ = (l.length : ℚ) + 1 := by
          rw [Finset.sum_add_distrib, ihl, hone]
      _ = ((j :: l).length : ℚ) := by push_cast [List.length_cons]; ring

theorem col_length (S : List (List ℚ)) (j : Nat) :
    (col S j).length = S.length := by simp [col]

theorem col_ne_nil (S : List (List ℚ)) (j : Nat) (hS : S ≠ []) :
    col S j ≠ [] := by
  simp only [col, ne_eq, List.map_eq_nil_iff]
  exact hS

theorem p_best_vec_length (S : List (List ℚ)) (M : Nat) :
    (p_best_vec S M).length = S.length := by simp [p_best_vec]

theorem p_best_vec_getD (S : List (List ℚ)) (M k : Nat)
    (hk : k < S.length) :
    (p_best_vec S M).getD k 0 =
      (((List.range M).countP (fun j => argmaxIdx (col S j) == k) : ℚ))
        / (M : ℚ) := by
  rw [p_best_vec, range_map_getD _ _ _ _ hk]

theorem p_best_vec_sum (S : List (List ℚ)) (M : Nat)
    (hS : S ≠ []) (hM : 0 < M) : (p_best_vec S M).sum = 1 := by
  rw [p_best_vec, range_map_sum]
  rw [← Finset.sum_div]
  rw [countP_partition (fun j => argmaxIdx (col S j)) S.length
    (List.range M) (fun j _ => by
      have := argmaxIdx_lt_length (col S j) (col_ne_nil S j hS)
      rwa [col_length] at this)]
  rw [List.length_range]
  exact div_self (by positivity)

theorem sampleMatrix_length (draw : Nat → Nat → ℚ) (n M : Nat) :
    (sampleMatrix draw n M).length = n := by simp [sampleMatrix]

theorem col_sampleMatrix (draw : Nat → Nat → ℚ) (n M j : Nat)
    (hj : j < M) :
    col (sampleMatrix draw n M) j
      = (List.range n).map (fun k => draw k j) := by
  simp only [col, sampleMatrix, List.map_map]
  refine List.map_congr_left (fun k _ => ?_)
  simp only [Function.comp_apply]
  exact range_map_getD (draw k) M j 0 hj

/-! ## Claim theorems -/

/-- C5: `read_posteriors` never fails on missing counter keys (it is a
total function of the store); a missing `alpha_k` or `beta_k` is read
as the prior value 1, and when no counter key has ever been written
every returned `alpha_k` and `beta_k` is ≥ 1. -/
theorem read_posteriors_prior_floor (df : Store) (eid : String)
    (n k : Nat) (hk : k < n) :
    (df (DKey.alpha eid k) = none →
      ((read_posteriors df eid n).1).getD k 0 = 1) ∧
    (df (DKey.beta eid k) = none →
      ((read_posteriors df eid n).2).getD k 0 = 1) ∧
    ((∀ j : Nat,
        df (DKey.alpha eid j) = none ∧ df (DKey.beta eid j) = none) →
      (∀ a ∈ (read_posteriors df eid n).1, 1 ≤ a) ∧
      (∀ b ∈ (read_posteriors df eid n).2, 1 ≤ b)) := by
  refine ⟨?_, ?_, ?_⟩
  · intro hmiss
    rw [read_posteriors, range_map_getD _ _ _ _ hk, hmiss]
    rfl
  · intro hmiss
    rw [read_posteriors, range_map_getD _ _ _ _ hk, hmiss]
    rfl
  · intro hall
    constructor
    · intro a ha
      simp only [read_posteriors, List.mem_map, List.mem_range] at ha
      obtain ⟨j, _, rfl⟩ := ha
      rw [(hall j).1]
      norm_num
    · intro b hb
      simp only [read_posteriors, List.mem_map, List.mem_range] at hb
      obtain ⟨j, _, rfl⟩ := hb
      rw [(hall j).2]
      norm_num

theorem read_posteriors_prior_floor_witness :
    ((read_posteriors emptyStore "e" 2).1).getD 0 0 = 1 ∧
    ((read_posteriors emptyStore "e" 2).2).getD 0 0 = 1 ∧
    (∀ a ∈ (read_posteriors emptyStore "e" 2).1, 1 ≤ a) := by
  have h := read_posteriors_prior_floor emptyStore "e" 2 0 (by decide)
  exact ⟨h.1 rfl, h.2.1 rfl, (h.2.2 (fun j => ⟨rfl, rfl⟩)).1⟩

/-- C8: applying a fixed multiset of reward events in any order yields
the same final store, in particular identical `alpha_k` and `beta_k`
for every arm `k`. -/
theorem reward_events_commute (df : Store) (eid : String)
    (evs evs2 : List (Int × ℚ)) (hp : evs.Perm evs2) :
    rewardEvents df eid evs = rewardEvents df eid evs2 ∧
    ∀ k : Int,
      rewardEvents df eid evs (DKey.alpha eid k)
        = rewardEvents df eid evs2 (DKey.alpha eid k) ∧
      rewardEvents df eid evs (DKey.beta eid k)
        = rewardEvents df eid evs2 (DKey.beta eid k) := by
  have h := rewardEvents_perm df eid evs evs2 hp
  exact ⟨h, fun k => ⟨by rw [h], by rw [h]⟩⟩

theorem reward_events_commute_witness :
    rewardEvents emptyStore "e" [((0 : Int), (1 : ℚ)), (1, 0)]
      = rewardEvents emptyStore "e" [(1, 0), (0, 1)] :=
  (reward_events_commute emptyStore "e"
    [((0 : Int), (1 : ℚ)), (1, 0)] [(1, 0), (0, 1)] (by decide)).1

/-- C9: for a known experiment with `n_arms ≥ 1`, `p_best_all_arms`
returns a vector of length `n_arms` whose entries sum to exactly 1
(each Monte-Carlo column contributes its argmax to exactly one arm),
hence in particular to 1 within the stated tolerance at `M = 10000`. -/
theorem p_best_all_arms_sums_to_one (df : Store) (eid : String)
    (draw : Nat → Nat → ℚ) (M : Nat) (n : Int)
    (hn : get_n_arms df eid = some n) (hpos : 0 < n) (hM : 0 < M) :
    ∃ v, p_best_all_arms df eid draw M = some v ∧
      v.length = n.toNat ∧ v.sum = 1 := by
  refine ⟨p_best_vec (sampleMatrix draw n.toNat M) M, ?_, ?_, ?_⟩
  · simp [p_best_all_arms, hn]
  · rw [p_best_vec_length, sampleMatrix_length]
  · refine p_best_vec_sum _ _ ?_ hM
    have hlen : (sampleMatrix draw n.toNat M).length = n.toNat :=
      sampleMatrix_length _ _ _
    intro hnil
    rw [hnil] at hlen
    simp only [List.length_nil] at hlen
    omega

theorem p_best_all_arms_sums_to_one_witness :
    ∃ v, p_best_all_arms dfC2 "e" (fun _ _ => 0) 10000 = some v ∧
      v.length = (2 : Int).toNat ∧ v.sum = 1 :=
  p_best_all_arms_sums_to_one dfC2 "e" (fun _ _ => 0) 10000 2 rfl
    (by decide) (by decide)

/-- C4: a successful `/reward` with `reward ∈ [0,1]` on arm `k`
returns 204 and increments exactly one of `alpha_k` (when
`reward > 0`) or `beta_k` (when `reward ≤ 0`) by 1, increments
`total_draws` by 1, and leaves the counters of every other arm unchanged;
consequently any sequence of such calls on arm `k` starting from the
seeded prior ends with `alpha_k = 1 + s` and `beta_k = 1 + f`, where
`s` counts rewards `> 0` and `f` rewards `≤ 0`. -/
theorem reward_update_rule :
    (∀ (df : Store) (eid : String) (k m : Int) (r : ℚ),
      df (DKey.nArms eid) = some m → 0 ≤ r → r ≤ 1 →
      (reward df eid k r).1 = RewardResp.ok204 ∧
      (0 < r →
        (reward df eid k r).2 (DKey.alpha eid k)
          = some ((df (DKey.alpha eid k)).getD 0 + 1) ∧
        (reward df eid k r).2 (DKey.beta eid k)
          = df (DKey.beta eid k)) ∧
      (r ≤ 0 →
        (reward df eid k r).2 (DKey.beta eid k)
          = some ((df (DKey.beta eid k)).getD 0 + 1) ∧
        (reward df eid k r).2 (DKey.alpha eid k)
          = df (DKey.alpha eid k)) ∧
      (reward df eid k r).2 (DKey.totalDraws eid)
        = some ((df (DKey.totalDraws eid)).getD 0 + 1) ∧
      (∀ q : Int, q ≠ k →
        (reward df eid k r).2 (DKey.alpha eid q)
          = df (DKey.alpha eid q) ∧
        (reward df eid k r).2 (DKey.beta eid q)
          = df (DKey.beta eid q))) ∧
    (∀ (df0 : Store) (eid : String) (n k : Nat) (rs : List ℚ),
      k < n → (∀ r ∈ rs, 0 ≤ r ∧ r ≤ 1) →
      rewardCalls (init_experiment df0 eid n) eid k rs
          (DKey.alpha eid k)
        = some (1 + (rs.countP (fun r => decide (0 < r)) : Int)) ∧
      rewardCalls (init_experiment df0 eid n) eid k rs
          (DKey.beta eid k)
        = some (1 + (rs.countP (fun r => decide (r ≤ 0)) : Int))) := by
  constructor
  · intro df eid k m r hm h0 h1
    have hstep := reward_valid df eid k r m hm h0 h1
    rw [hstep]
    refine ⟨rfl, ?_, ?_, record_reward_totalDraws df eid k r, ?_⟩
    · intro hr
      exact ⟨record_reward_alpha_pos df eid k r hr,
        record_reward_beta_pos df eid k r hr⟩
    · intro hr
      have hnr : ¬ 0 < r := not_lt.mpr hr
      exact ⟨record_reward_beta_nonpos df eid k r hnr,
        record_reward_alpha_nonpos df eid k r hnr⟩
    · intro q hq
      constructor
      · exact record_reward_other df eid k r (DKey.alpha eid q)
          (by simp [hq]) (by simp) (by simp)
      · exact record_reward_other df eid k r (DKey.beta eid q)
          (by simp) (by simp [hq]) (by simp)
  · intro df0 eid n k rs hk hv
    exact rewardCalls_counts eid k rs (init_experiment df0 eid n) n 1 1
      (init_experiment_nArms df0 eid n) hv
      (init_experiment_alpha df0 eid n k hk)
      (init_experiment_beta df0 eid n k hk)

theorem reward_update_rule_witness :
    (reward dfSeeded "e" 0 1).1 = RewardResp.ok204 ∧
    rewardCalls (init_experiment emptyStore "e" 2) "e" 0
        [(1 : ℚ), 0] (DKey.alpha "e" 0)
      = some (1 + ((([(1 : ℚ), 0]).countP
          (fun r => decide (0 < r)) : Nat) : Int)) := by
  refine ⟨(reward_update_rule.1 dfSeeded "e" 0 2 1 (by decide)
    (by norm_num) (by norm_num)).1, ?_⟩
  exact (reward_update_rule.2 emptyStore "e" 2 0 [(1 : ℚ), 0]
    (by decide) (by norm_num)).1

/-- C6: `thompson_sample` returns the argmax of the per-arm Beta draws
(ties to the lowest index) together with the fraction, over the
`M_hot = 1000` Monte-Carlo columns, of columns in which the chosen arm
attains the maximum sample (stated under per-column unique maxima,
which hold with probability one for continuous draws). -/
theorem thompson_sample_spec (samples : List ℚ) (mc : List (List ℚ))
    (hs : samples ≠ []) (hlen : mc.length = samples.length)
    (hrow : ∀ row ∈ mc, row.length = M_hot)
    (hu : ∀ j, j < M_hot → uniqueMax (col mc j)) :
    isLowestArgmax samples (thompson_sample samples mc).1 ∧
    (thompson_sample samples mc).2 =
      (((List.range M_hot).countP (fun j =>
        decide (attainsMax (col mc j) (thompson_sample samples mc).1))
        : ℚ)) / (M_hot : ℚ) := by
  have hmc : mc ≠ [] := by
    intro hnil
    rw [hnil] at hlen
    exact hs (List.length_eq_zero.mp hlen.symm)
  have harm : (thompson_sample samples mc).1 = argmaxIdx samples := rfl
  constructor
  · rw [harm]; exact argmaxIdx_isLowestArgmax samples hs
  · have hcnt : (List.range M_hot).countP
        (fun j => argmaxIdx (col mc j) == argmaxIdx samples)
        = (List.range M_hot).countP (fun j =>
          decide (attainsMax (col mc j) (argmaxIdx samples))) := by
      refine List.countP_congr (fun j hj => ?_)
      have hj2 : j < M_hot := List.mem_range.mp hj
      have hiff := argmaxIdx_eq_iff_attainsMax (col mc j)
        (col_ne_nil mc j hmc) (hu j hj2) (argmaxIdx samples)
      simp only [beq_iff_eq, decide_eq_true_eq]
      exact hiff
    rw [harm]
    show ((((List.range M_hot).countP
      (fun j => argmaxIdx (col mc j) == argmaxIdx samples)) : ℚ))
        / (M_hot : ℚ) = _
    rw [hcnt]

theorem thompson_sample_spec_witness :
    isLowestArgmax [(1 : ℚ) / 2, 3 / 4]
      (thompson_sample [(1 : ℚ) / 2, 3 / 4]
        [List.replicate 1000 ((1 : ℚ) / 2),
         List.replicate 1000 ((3 : ℚ) / 4)]).1 := by
  refine (thompson_sample_spec [(1 : ℚ) / 2, 3 / 4]
    [List.replicate 1000 ((1 : ℚ) / 2),
     List.replicate 1000 ((3 : ℚ) / 4)]
    (by simp) rfl ?_ ?_).1
  · intro row hrow
    rcases List.mem_pair.mp hrow with h | h <;>
      (rw [h, List.length_replicate]; rfl)
  · intro j hj
    have hjr : j < (List.replicate 1000 ((1 : ℚ) / 2)).length := by
      rw [List.length_replicate]; exact hj
    have hjr2 : j < (List.replicate 1000 ((3 : ℚ) / 4)).length := by
      rw [List.length_replicate]; exact hj
    have hcol : col [List.replicate 1000 ((1 : ℚ) / 2),
        List.replicate 1000 ((3 : ℚ) / 4)] j = [1 / 2, 3 / 4] := by
      simp only [col, List.map_cons, List.map_nil]
      rw [List.getD_eq_getElem _ _ hjr, List.getD_eq_getElem _ _ hjr2,
        List.getElem_replicate, List.getElem_replicate]
    rw [hcol]
    intro a b ha hb
    have key : ∀ c, attainsMax [(1 : ℚ) / 2, 3 / 4] c → c = 1 := by
      intro c hc
      obtain ⟨hc2, hcall⟩ := hc
      have hc22 : c < 2 := by simpa using hc2
      have hc01 : c = 0 ∨ c = 1 := by omega
      rcases hc01 with rfl | rfl
      · have := hcall 1 (by simp)
        simp only [List.getD_cons_zero, List.getD_cons_succ] at this
        norm_num at this
      · rfl
    rw [key a ha, key b hb]

/-- Membership in the `concluded` output of the sweep implies the
experiment was in the input list and its stopping check fired (the
check reads only the immutable State Store, not the registry). -/
theorem check_and_conclude_mem (df : Store)
    (draw : String → Nat → Nat → ℚ) :
    ∀ (ids : List String) (acc : List String) (reg : Registry)
      (x : String),
      x ∈ (ids.foldl
        (fun acc eid =>
          let r := check_stopping_rule df eid (draw eid)
            STOPPING_THRESHOLD M_stop
          if r.1 then
            (acc.1 ++ [eid], (concludeUpdate acc.2 eid r.2.1).1)
          else acc)
        (acc, reg)).1 →
      x ∈ acc ∨ (x ∈ ids ∧
        (check_stopping_rule df x (draw x)
          STOPPING_THRESHOLD M_stop).1 = true)
  | [], acc, reg, x => fun hx => Or.inl hx
  | eid :: ids, acc, reg, x => fun hx => by
    rw [List.foldl_cons] at hx
    by_cases hc : (check_stopping_rule df eid (draw eid)
        STOPPING_THRESHOLD M_stop).1
    · simp only [hc, if_true] at hx
      rcases check_and_conclude_mem df draw ids (acc ++ [eid]) _ x hx with
        hmem | ⟨hin, hfire⟩
      · rcases List.mem_append.mp hmem with h | h
        · exact Or.inl h
        · refine Or.inr ⟨by simp [List.mem_singleton.mp h], ?_⟩
          rw [List.mem_singleton.mp h]
          exact hc
      · exact Or.inr ⟨by simp [hin], hfire⟩
    · simp only [hc, if_false] at hx
      rcases check_and_conclude_mem df draw ids acc reg x hx with
        hmem | ⟨hin, hfire⟩
      · exact Or.inl hmem
      · exact Or.inr ⟨by simp [hin], hfire⟩

/-- Elements on which the step of the fold is the identity can be filtered
out of the fold without changing its result. -/
theorem foldl_skip_elem {α β : Type} [DecidableEq α] (f : β → α → β)
    (e : α) (hf : ∀ b, f b e = b) :
    ∀ (l : List α) (init : β),
      l.foldl f init = (l.filter (fun x => x ≠ e)).foldl f init
  | [], init => rfl
  | x :: l, init => by
    rw [List.foldl_cons, List.filter_cons]
    by_cases hx : x = e
    · subst hx
      have hcond : (decide (x ≠ x)) = false := by simp
      rw [hf]
      simp only [hcond, Bool.false_eq_true, if_false]
      exact foldl_skip_elem f x hf l init
    · have hcond : (decide (x ≠ e)) = true := by simp [hx]
      simp only [hcond, if_true, List.foldl_cons]
      exact foldl_skip_elem f e hf l (f init x)

/-- C7: the stopping check computes `winner = argmax p_best` and fires
exactly when `p_best[winner] ≥ threshold`; the thresholds default to
0.95; and a one-experiment sweep attempts the conditional conclude
exactly when the check fires. -/
theorem stopping_rule_spec (df : Store) (eid : String)
    (draw : Nat → Nat → ℚ) (edraw : String → Nat → Nat → ℚ)
    (reg : Registry) (threshold : ℚ) (M : Nat) (n : Int)
    (hn : df (DKey.nArms eid) = some n) :
    (∃ b w, should_conclude df eid draw threshold M = some (b, w) ∧
      w = argmaxIdx (p_best_vec (sampleMatrix draw n.toNat M) M) ∧
      ((b = true) ↔ threshold ≤
        (p_best_vec (sampleMatrix draw n.toNat M) M).getD w 0)) ∧
    DEFAULT_THRESHOLD = 95 / 100 ∧
    STOPPING_THRESHOLD = 95 / 100 ∧
    (check_and_conclude df edraw reg [eid] =
      if (check_stopping_rule df eid (edraw eid)
          STOPPING_THRESHOLD M_stop).1 then
        ([eid], (concludeUpdate reg eid
          (check_stopping_rule df eid (edraw eid)
            STOPPING_THRESHOLD M_stop).2.1).1)
      else ([], reg)) := by
  refine ⟨?_, rfl, rfl, ?_⟩
  · refine ⟨decide (threshold ≤
      (p_best_vec (sampleMatrix draw n.toNat M) M).getD
        (argmaxIdx (p_best_vec (sampleMatrix draw n.toNat M) M)) 0),
      argmaxIdx (p_best_vec (sampleMatrix draw n.toNat M) M),
      ?_, rfl, ?_⟩
    · simp [should_conclude, get_n_arms, hn]
    · simp [decide_eq_true_eq]
  · by_cases hc : (check_stopping_rule df eid (edraw eid)
        STOPPING_THRESHOLD M_stop).1
    · simp [check_and_conclude, hc]
    · simp [check_and_conclude, hc]

theorem stopping_rule_spec_witness :
    ∃ b w, should_conclude dfC2 "e" (drawWin0 "e") DEFAULT_THRESHOLD
        10000 = some (b, w) ∧
      w = argmaxIdx (p_best_vec
        (sampleMatrix (drawWin0 "e") (2 : Int).toNat 10000) 10000) ∧
      ((b = true) ↔ DEFAULT_THRESHOLD ≤
        (p_best_vec (sampleMatrix (drawWin0 "e") (2 : Int).toNat 10000)
          10000).getD w 0) :=
  (stopping_rule_spec dfC2 "e" (drawWin0 "e") drawWin0 regConcluded
    DEFAULT_THRESHOLD 10000 2 rfl).1

/-- C10: when the `n_arms` key of a running experiment is absent from
the State Store, the per-experiment stopping check returns
`(False, -1, [])` instead of raising, the sweep never adds that
experiment to its `concluded` output, and the sweep result is the
same as if the experiment were dropped from the input list. -/
theorem missing_n_arms_skipped (df : Store) (eid : String)
    (draw : String → Nat → Nat → ℚ) (reg : Registry)
    (ids : List String) (threshold : ℚ) (M : Nat)
    (hmiss : df (DKey.nArms eid) = none) :
    check_stopping_rule df eid (draw eid) threshold M
      = (false, -1, []) ∧
    eid ∉ (check_and_conclude df draw reg ids).1 ∧
    check_and_conclude df draw reg ids
      = check_and_conclude df draw reg
          (ids.filter (fun x => x ≠ eid)) := by
  have hzero : check_stopping_rule df eid (draw eid) threshold M
      = (false, -1, []) := by
    simp [check_stopping_rule, hmiss]
  have hzero2 : (check_stopping_rule df eid (draw eid)
      STOPPING_THRESHOLD M_stop).1 = false := by
    simp [check_stopping_rule, hmiss]
  refine ⟨hzero, ?_, ?_⟩
  · intro hmem
    rcases check_and_conclude_mem df draw ids [] reg eid hmem with
      h | ⟨_, hfire⟩
    · exact absurd h (List.not_mem_nil eid)
    · rw [hzero2] at hfire
      exact Bool.false_ne_true hfire
  · have hf : ∀ b : List String × Registry,
        (fun (acc : List String × Registry) x =>
          let r := check_stopping_rule df x (draw x)
            STOPPING_THRESHOLD M_stop
          if r.1 then
            (acc.1 ++ [x], (concludeUpdate acc.2 x r.2.1).1)
          else acc) b eid = b := by
      intro b
      simp [hzero2]
    simp only [check_and_conclude]
    exact foldl_skip_elem _ eid hf ids ([], reg)

theorem missing_n_arms_skipped_witness :
    check_stopping_rule emptyStore "e" (drawWin0 "e")
        STOPPING_THRESHOLD M_stop = (false, -1, []) ∧
    "e" ∉ (check_and_conclude emptyStore drawWin0
      (fun _ => none) ["e"]).1 :=
  ⟨(missing_n_arms_skipped emptyStore "e" drawWin0 (fun _ => none)
      ["e"] STOPPING_THRESHOLD M_stop rfl).1,
   (missing_n_arms_skipped emptyStore "e" drawWin0 (fun _ => none)
      ["e"] STOPPING_THRESHOLD M_stop rfl).2.1⟩

/-- With the `drawWin0` oracle every Monte-Carlo column is `[1, 0]`,
so the P(best) vector over two arms is exactly `[1, 0]`. -/
theorem p_best_vec_win0 (e : String) (M : Nat) (hM : 0 < M) :
    p_best_vec (sampleMatrix (drawWin0 e) 2 M) M = [1, 0] := by
  have hcol : ∀ j ∈ List.range M,
      argmaxIdx (col (sampleMatrix (drawWin0 e) 2 M) j) = 0 := by
    intro j hj
    rw [col_sampleMatrix _ _ _ _ (List.mem_range.mp hj)]
    have hmap : (List.range 2).map (fun k => drawWin0 e k j)
        = [1, 0] := by
      rw [show List.range 2 = [0, 1] from rfl]
      simp [drawWin0]
    rw [hmap]
    decide
  have h0 : (List.range M).countP
      (fun j => argmaxIdx (col (sampleMatrix (drawWin0 e) 2 M) j) == 0)
      = M := by
    rw [List.countP_eq_length.mpr]
    · exact List.length_range M
    · intro j hj
      simp [hcol j hj]
  have h1 : (List.range M).countP
      (fun j => argmaxIdx (col (sampleMatrix (drawWin0 e) 2 M) j) == 1)
      = 0 := by
    rw [List.countP_eq_zero.mpr]
    intro j hj
    simp [hcol j hj]
  have hMne : (M : ℚ) ≠ 0 := Nat.cast_ne_zero.mpr (by omega)
  unfold p_best_vec
  rw [sampleMatrix_length]
  rw [show List.range 2 = [0, 1] from rfl]
  simp only [List.map_cons, List.map_nil]
  rw [h0, h1]
  rw [div_self hMne]
  norm_num

/-- On the `dfC2`/`drawWin0` scenario the pipeline stopping check
fires with winner arm 0 and `p_best = [1, 0]`. -/
theorem check_stopping_rule_win0 :
    check_stopping_rule dfC2 "e" (drawWin0 "e") STOPPING_THRESHOLD
      M_stop = (true, 0, [1, 0]) := by
  have hp := p_best_vec_win0 "e" M_stop (by norm_num [M_stop])
  rw [show check_stopping_rule dfC2 "e" (drawWin0 "e")
      STOPPING_THRESHOLD M_stop
    = (decide (STOPPING_THRESHOLD ≤
        (p_best_vec (sampleMatrix (drawWin0 "e") 2 M_stop) M_stop).getD
          (argmaxIdx (p_best_vec (sampleMatrix (drawWin0 "e") 2 M_stop)
            M_stop)) 0),
      ((argmaxIdx (p_best_vec (sampleMatrix (drawWin0 "e") 2 M_stop)
        M_stop) : Int)),
      p_best_vec (sampleMatrix (drawWin0 "e") 2 M_stop) M_stop)
    from rfl]
  rw [hp]
  have harg : argmaxIdx [(1 : ℚ), 0] = 0 := by decide
  rw [harg]
  refine congrArg₂ Prod.mk ?_ rfl
  rw [show ([(1 : ℚ), 0]).getD 0 0 = 1 from rfl]
  rw [show STOPPING_THRESHOLD = 95 / 100 from rfl]
  norm_num

/-- C1 (code bug): `POST /reward` never validates `arm_id`.  With
experiment `"e"` seeded with 2 arms, a reward on arm 5 with
`reward = 1.0` returns 204 rather than 422, creates and increments the
out-of-range counter `alpha_5`, and increments `total_draws`. -/
theorem reward_out_of_range_bug :
    dfSeeded (DKey.nArms "e") = some 2 ∧
    dfSeeded (DKey.alpha "e" 5) = none ∧
    dfSeeded (DKey.totalDraws "e") = some 0 ∧
    (reward dfSeeded "e" 5 1).1 = RewardResp.ok204 ∧
    (reward dfSeeded "e" 5 1).1 ≠ RewardResp.invalid422 ∧
    (reward dfSeeded "e" 5 1).2 (DKey.alpha "e" 5) = some 1 ∧
    (reward dfSeeded "e" 5 1).2 (DKey.totalDraws "e") = some 1 := by
  decide

/-- C3 (code bug): a second `POST /experiments` with an existing id is
neither a no-op nor an error: after one recorded success on arm 0
(`alpha_0 = 2`, `total_draws = 1`), re-creating `"e"` returns 201 and
silently resets `alpha_0` to 1 and `total_draws` to 0. -/
theorem create_experiment_reset_bug :
    dfAfterReward (DKey.alpha "e" 0) = some 2 ∧
    dfAfterReward (DKey.totalDraws "e") = some 1 ∧
    (create_experiment dfAfterReward "e" 2).1 = CreateResp.created201 ∧
    (create_experiment dfAfterReward "e" 2).2 (DKey.alpha "e" 0)
      = some 1 ∧
    (create_experiment dfAfterReward "e" 2).2 (DKey.totalDraws "e")
      = some 0 := by
  decide

/-- A one-experiment sweep, written out: when its stopping check
fires the experiment is appended to `concluded` whatever the
row count of the conditional UPDATE was. -/
theorem check_and_conclude_singleton (df : Store)
    (draw : String → Nat → Nat → ℚ) (reg : Registry) (e : String)
    (b : Bool) (w : Int) (p : List ℚ)
    (h : check_stopping_rule df e (draw e) STOPPING_THRESHOLD M_stop
      = (b, w, p)) :
    check_and_conclude df draw reg [e]
      = if b then ([e], (concludeUpdate reg e w).1) else ([], reg) := by
  unfold check_and_conclude
  rw [List.foldl_cons, List.foldl_nil]
  show (let r := (check_stopping_rule df e (draw e)
      STOPPING_THRESHOLD M_stop);
    if r.1 then (([] : List String) ++ [e],
      (concludeUpdate reg e r.2.1).1)
    else ([], reg)) = if b then ([e], (concludeUpdate reg e w).1)
      else ([], reg)
  rw [h]
  cases b
  · rfl
  · rfl

/-- C2 (code bug): the sweep discards the row count of the
conditional UPDATE.  On a store where the stopping rule fires for `"e"` but the
registry row is already concluded, the UPDATE changes 0 rows, yet
`check_and_conclude` still appends `"e"` to `concluded` and one
Grafana annotation is still emitted for it. -/
theorem conclude_ignores_rowcount_bug :
    (check_stopping_rule dfC2 "e" (drawWin0 "e") STOPPING_THRESHOLD
      M_stop).1 = true ∧
    (concludeUpdate regConcluded "e"
      (check_stopping_rule dfC2 "e" (drawWin0 "e") STOPPING_THRESHOLD
        M_stop).2.1).2 = 0 ∧
    check_and_conclude dfC2 drawWin0 regConcluded ["e"]
      = (["e"], regConcluded) ∧
    post_grafana_annotations
      (check_and_conclude dfC2 drawWin0 regConcluded ["e"]).1
      = [grafanaText "e"] := by
  have hr := check_stopping_rule_win0
  have hcc : check_and_conclude dfC2 drawWin0 regConcluded ["e"]
      = (["e"], regConcluded) :=
    (check_and_conclude_singleton dfC2 drawWin0 regConcluded "e"
      true 0 [1, 0] hr).trans rfl
  have h2 : (concludeUpdate regConcluded "e"
      (check_stopping_rule dfC2 "e" (drawWin0 "e") STOPPING_THRESHOLD
        M_stop).2.1).2 = 0 := by
    rw [hr]
    rfl
  refine ⟨by rw [hr], h2, hcc, ?_⟩
  rw [hcc]
  rfl

end Bandit
